import Mathlib

/-!
Shallow embedding of `app/managers/base.py` (`ManagerBase`, a generic CRUD
manager over a declarative entity model and an async database session).

Values, attribute maps, the model class (Entity Definition), the database
state held behind the session, and the sequence of operations a manager call
issues on the session handle are all modelled explicitly.  Field access is by
name; the store assigns identities through the primary-key column `id`.
-/

/-- A column value: the null value, an integer, or a string. -/
inductive Value where
| null : Value
| int : Int → Value
| str : String → Value
deriving DecidableEq, Repr

/-- Attribute map of an entity instance or of a database row: field name to
value, in declaration order. -/
abbrev Attrs := List (String × Value)

/-- Read an attribute by name; `Value.null` when the name is absent. -/
def getAttr : Attrs → String → Value
| [], _ => Value.null
| (k, v) :: rest, key => if k = key then v else getAttr rest key

/-- Write an attribute by name (Python `setattr`): replace the first binding
of the key, or append a new binding when the key is absent. -/
def setAttr : Attrs → String → Value → Attrs
| [], k, v => [(k, v)]
| (k0, v0) :: rest, k, v =>
  if k0 = k then (k, v) :: rest else (k0, v0) :: setAttr rest k v

/-- The Entity Definition (the declarative model class): its declared
fields. -/
structure Model where
  fields : List String
deriving DecidableEq, Repr

/-- Python `hasattr(self.model, key)`: the key names a declared field. -/
def Model.hasattr (m : Model) (k : String) : Bool :=
  m.fields.contains k

/-- Python `self.model(**data)`: the declarative constructor.  Every key of
`data` must name a declared field, otherwise construction fails; declared
fields missing from `data` default to null. -/
def Model.construct (m : Model) (data : Attrs) : Except String Attrs :=
  if data.all (fun kv => m.hasattr kv.1) then
    Except.ok (m.fields.map (fun f => (f, getAttr data f)))
  else
    Except.error "invalid keyword argument"

/-- An entity instance: its persistent identity in the session's identity
map (`none` while transient), and its attributes. -/
structure Obj where
  pid : Option Nat
  attrs : Attrs
deriving DecidableEq, Repr

/-- The relational store behind the session: committed rows and the next
identity the store will assign. -/
structure DB where
  rows : List Attrs
  nextId : Nat
deriving DecidableEq, Repr

/-- One operation issued on the session handle. -/
inductive SessionOp where
| add : SessionOp
| commit : SessionOp
| refresh : SessionOp
| del : SessionOp
deriving DecidableEq, Repr

/-- A result row materialised as an entity instance bound to the session. -/
def rowToObj (r : Attrs) : Obj :=
  match getAttr r "id" with
  | Value.int n => ⟨some n.toNat, r⟩
  | _ => ⟨none, r⟩

/-- `ManagerBase._save`: `session.add(obj)`, `await session.commit()`, and,
unless suppressed, `await session.refresh(obj)`.  A transient object is
inserted and receives the store-assigned identity when its `id` is null; a
persistent object has its row updated in place.  Returns the object, the new
store state and the session operations in the order they were issued. -/
def ManagerBase._save (obj : Obj) (refresh : Bool) (s : DB) :
    Obj × DB × List SessionOp :=
  match obj.pid with
  | none =>
    let i : Nat :=
      match getAttr obj.attrs "id" with
      | Value.int n => n.toNat
      | _ => s.nextId
    let a := setAttr obj.attrs "id" (Value.int (Int.ofNat i))
    (⟨some i, a⟩, ⟨s.rows ++ [a], max s.nextId (i + 1)⟩,
      [SessionOp.add, SessionOp.commit] ++
        if refresh then [SessionOp.refresh] else [])
  | some i =>
    (obj,
      ⟨s.rows.map (fun r =>
        if getAttr r "id" = Value.int (Int.ofNat i) then obj.attrs else r),
        s.nextId⟩,
      [SessionOp.add, SessionOp.commit] ++
        if refresh then [SessionOp.refresh] else [])

/-- `ManagerBase._filter`: `session.execute(select(model).where(...))` with
one equality clause per criteria entry.  `getattr(self.model, attr)` raises
`AttributeError` when a criteria key is not an attribute of the model. -/
def ManagerBase._filter (m : Model) (kwargs : Attrs) (s : DB) :
    Except String (List Attrs) :=
  if kwargs.all (fun kv => m.hasattr kv.1) then
    Except.ok (s.rows.filter (fun r =>
      kwargs.all (fun kv => decide (getAttr r kv.1 = kv.2))))
  else
    Except.error "AttributeError"

/-- `ManagerBase._delete`: `await session.delete(obj)` then
`await session.commit()`; the committed removal deletes the row carrying the
object's identity, and the object itself is returned unchanged. -/
def ManagerBase._delete (obj : Obj) (s : DB) : Obj × DB × List SessionOp :=
  (obj,
    ⟨s.rows.filter (fun r =>
      match obj.pid with
      | some i => ! decide (getAttr r "id" = Value.int (Int.ofNat i))
      | none => true),
      s.nextId⟩,
    [SessionOp.del, SessionOp.commit])

/-- The `for key, value in data.items(): if hasattr(model, key): setattr`
loop of `ManagerBase.update`. -/
def applyData (m : Model) (a : Attrs) (data : Attrs) : Attrs :=
  data.foldl (fun a kv => if m.hasattr kv.1 then setAttr a kv.1 kv.2 else a) a

/-- `ManagerBase.create`: construct the object from data, then save it with
the post-commit refresh. -/
def ManagerBase.create (m : Model) (data : Attrs) (s : DB) :
    Except String (Obj × DB × List SessionOp) :=
  (m.construct data).map (fun a => ManagerBase._save ⟨none, a⟩ true s)

/-- `ManagerBase.get`: run the filtered read and return the first result, or
none. -/
def ManagerBase.get (m : Model) (kwargs : Attrs) (s : DB) :
    Except String (Option Obj) :=
  (ManagerBase._filter m kwargs s).map (fun rows => (rows.map rowToObj).head?)

/-- `ManagerBase.get_all`: the filtered read with no criteria, all results. -/
def ManagerBase.get_all (m : Model) (s : DB) : Except String (List Obj) :=
  (ManagerBase._filter m [] s).map (fun rows => rows.map rowToObj)

/-- `ManagerBase.filter`: the filtered read, all results. -/
def ManagerBase.filter (m : Model) (kwargs : Attrs) (s : DB) :
    Except String (List Obj) :=
  (ManagerBase._filter m kwargs s).map (fun rows => rows.map rowToObj)

/-- `ManagerBase.update`: overwrite each declared field named in `data` on
the object, skipping unknown keys, then save with the post-commit refresh. -/
def ManagerBase.update (m : Model) (obj : Obj) (data : Attrs) (s : DB) :
    Obj × DB × List SessionOp :=
  ManagerBase._save ⟨obj.pid, applyData m obj.attrs data⟩ true s

/-- `ManagerBase.delete`: delegate to the delete helper. -/
def ManagerBase.delete (obj : Obj) (s : DB) : Obj × DB × List SessionOp :=
  ManagerBase._delete obj s

/-- `ManagerBase.__init__`: bind the caller-supplied model over the
class-level one when given, then `assert self.model`. -/
def ManagerBase.init (classModel : Option Model) (arg : Option Model) :
    Except String Model :=
  match (match arg with | some x => some x | none => classModel) with
  | some x => Except.ok x
  | none => Except.error "You need to provide the model class"

/-! Helper lemmas about attribute maps and the update loop. -/

theorem getAttr_setAttr_same (a : Attrs) (k : String) (v : Value) :
    getAttr (setAttr a k v) k = v := by
  induction a with
  | nil => simp [setAttr, getAttr]
  | cons kv rest ih =>
    obtain ⟨k0, v0⟩ := kv
    by_cases h : k0 = k
    · simp [setAttr, h, getAttr]
    · simp [setAttr, h, getAttr, ih]

theorem getAttr_setAttr_other (a : Attrs) (k k2 : String) (v : Value)
    (h : k2 ≠ k) :
    getAttr (setAttr a k v) k2 = getAttr a k2 := by
  induction a with
  | nil => simp [setAttr, getAttr, Ne.symm h]
  | cons kv rest ih =>
    obtain ⟨k0, v0⟩ := kv
    by_cases h0 : k0 = k
    · subst h0
      simp [setAttr, getAttr, Ne.symm h]
    · simp only [setAttr, if_neg h0, getAttr]
      by_cases h2 : k0 = k2
      · simp [h2]
      · simp [h2, ih]

theorem getAttr_of_mem_nodup (kv : String × Value) :
    ∀ (data : Attrs), (data.map Prod.fst).Nodup → kv ∈ data →
      getAttr data kv.1 = kv.2 := by
  intro data
  induction data with
  | nil => intro _ hm; cases hm
  | cons kv0 rest ih =>
    intro hnd hm
    obtain ⟨k0, v0⟩ := kv0
    rcases List.mem_cons.mp hm with h1 | h1
    · subst h1
      simp [getAttr]
    · have hnd2 : k0 ∉ rest.map Prod.fst ∧ (rest.map Prod.fst).Nodup := by
        simpa only [List.map_cons, List.nodup_cons] using hnd
      have hk : k0 ≠ kv.1 := by
        intro he
        have hmem : kv.1 ∈ rest.map Prod.fst :=
          List.mem_map_of_mem Prod.fst h1
        rw [he] at hnd2
        exact hnd2.1 hmem
      simp [getAttr, hk, ih hnd2.2 h1]

theorem getAttr_map_fields (g : String → Value) (k : String) :
    ∀ (fields : List String), k ∈ fields →
      getAttr (fields.map (fun f => (f, g f))) k = g k := by
  intro fields
  induction fields with
  | nil => intro h; cases h
  | cons f0 rest ih =>
    intro h
    by_cases hf : f0 = k
    · simp [getAttr, hf]
    · rcases List.mem_cons.mp h with h1 | h1
      · exact absurd h1.symm hf
      · simp [getAttr, hf, ih h1]

theorem getAttr_map_fields_not_mem (g : String → Value) (k : String) :
    ∀ (fields : List String), k ∉ fields →
      getAttr (fields.map (fun f => (f, g f))) k = Value.null := by
  intro fields
  induction fields with
  | nil => intro _; simp [getAttr]
  | cons f0 rest ih =>
    intro h
    have h1 : f0 ≠ k := fun he => h (he ▸ List.mem_cons_self f0 rest)
    have h2 : k ∉ rest := fun hh => h (List.mem_cons_of_mem f0 hh)
    simp [getAttr, h1, ih h2]

theorem applyData_cons (m : Model) (a : Attrs) (kv : String × Value)
    (rest : Attrs) :
    applyData m a (kv :: rest) =
      applyData m (if m.hasattr kv.1 then setAttr a kv.1 kv.2 else a) rest :=
  rfl

theorem getAttr_applyData_not_mem (m : Model) (k : String) :
    ∀ (data : Attrs), (∀ kv ∈ data, kv.1 ≠ k) → ∀ (a : Attrs),
      getAttr (applyData m a data) k = getAttr a k := by
  intro data
  induction data with
  | nil => intro _ a; rfl
  | cons kv0 rest ih =>
    intro h a
    rw [applyData_cons]
    rw [ih (fun kv hm => h kv (List.mem_cons_of_mem kv0 hm))]
    by_cases hh : m.hasattr kv0.1 = true
    · rw [if_pos hh,
        getAttr_setAttr_other _ _ _ _ (Ne.symm (h kv0 (List.mem_cons_self kv0 rest)))]
    · rw [if_neg hh]

theorem getAttr_applyData_not_hasattr (m : Model) (k : String)
    (hk : m.hasattr k = false) :
    ∀ (data : Attrs) (a : Attrs),
      getAttr (applyData m a data) k = getAttr a k := by
  intro data
  induction data with
  | nil => intro a; rfl
  | cons kv0 rest ih =>
    intro a
    rw [applyData_cons, ih]
    by_cases hh : m.hasattr kv0.1 = true
    · have hne : kv0.1 ≠ k := by
        intro he
        rw [he, hk] at hh
        cases hh
      rw [if_pos hh, getAttr_setAttr_other _ _ _ _ (Ne.symm hne)]
    · rw [if_neg hh]

theorem getAttr_applyData_mem (m : Model) (kv : String × Value)
    (hh : m.hasattr kv.1 = true) :
    ∀ (data : Attrs), (data.map Prod.fst).Nodup → kv ∈ data → ∀ (a : Attrs),
      getAttr (applyData m a data) kv.1 = kv.2 := by
  intro data
  induction data with
  | nil => intro _ hm; cases hm
  | cons kv0 rest ih =>
    intro hnd hm a
    rw [applyData_cons]
    rcases List.mem_cons.mp hm with h1 | h1
    · subst h1
      have hnd2 : kv.1 ∉ rest.map Prod.fst ∧ (rest.map Prod.fst).Nodup := by
        simpa only [List.map_cons, List.nodup_cons] using hnd
      have hrest : ∀ kv2 ∈ rest, kv2.1 ≠ kv.1 := by
        intro kv2 hm2 he
        refine hnd2.1 ?hmem
        rw [← he]
        exact List.mem_map_of_mem Prod.fst hm2
      rw [if_pos hh]
      rw [getAttr_applyData_not_mem m kv.1 rest hrest]
      exact getAttr_setAttr_same _ _ _
    · have hnd2 : kv0.1 ∉ rest.map Prod.fst ∧ (rest.map Prod.fst).Nodup := by
        simpa only [List.map_cons, List.nodup_cons] using hnd
      exact ih hnd2.2 h1 _

theorem applyData_filter_hasattr (m : Model) :
    ∀ (data : Attrs) (a : Attrs),
      applyData m a (data.filter (fun kv => m.hasattr kv.1)) =
        applyData m a data := by
  intro data
  induction data with
  | nil => intro a; rfl
  | cons kv0 rest ih =>
    intro a
    by_cases hh : m.hasattr kv0.1 = true
    · rw [show (kv0 :: rest).filter (fun kv => m.hasattr kv.1) =
          kv0 :: rest.filter (fun kv => m.hasattr kv.1) from by
            simp [List.filter_cons, hh]]
      rw [applyData_cons, applyData_cons, if_pos hh]
      exact ih _
    · rw [show (kv0 :: rest).filter (fun kv => m.hasattr kv.1) =
          rest.filter (fun kv => m.hasattr kv.1) from by
            simp [List.filter_cons, hh]]
      rw [applyData_cons, if_neg hh]
      exact ih _

theorem save_trace (obj : Obj) (b : Bool) (s : DB) :
    (ManagerBase._save obj b s).2.2 =
      [SessionOp.add, SessionOp.commit] ++
        if b then [SessionOp.refresh] else [] := by
  rcases obj with ⟨pid, attrs⟩
  cases pid <;> rfl

theorem save_persistent_obj (obj : Obj) (b : Bool) (s : DB) (i : Nat)
    (hp : obj.pid = some i) :
    (ManagerBase._save obj b s).1 = obj := by
  rcases obj with ⟨pid, attrs⟩
  simp only at hp
  subst hp
  rfl

theorem getAttr_not_mem_keys (k : String) :
    ∀ (data : Attrs), k ∉ data.map Prod.fst → getAttr data k = Value.null := by
  intro data
  induction data with
  | nil => intro _; rfl
  | cons kv0 rest ih =>
    intro h
    obtain ⟨k0, v0⟩ := kv0
    have h1 : k0 ≠ k := by
      intro he
      refine h ?hmem
      rw [← he]
      exact List.mem_cons_self _ _
    have h2 : k ∉ rest.map Prod.fst := fun hh =>
      h (List.mem_cons_of_mem _ hh)
    simp [getAttr, h1, ih h2]

theorem hasattr_iff_mem (m : Model) (k : String) :
    m.hasattr k = true ↔ k ∈ m.fields := by
  simp [Model.hasattr]

theorem save_transient (a0 : Attrs) (b : Bool) (s : DB)
    (h : getAttr a0 "id" = Value.null) :
    ManagerBase._save ⟨none, a0⟩ b s =
      (⟨some s.nextId, setAttr a0 "id" (Value.int (Int.ofNat s.nextId))⟩,
       ⟨s.rows ++ [setAttr a0 "id" (Value.int (Int.ofNat s.nextId))],
        max s.nextId (s.nextId + 1)⟩,
       [SessionOp.add, SessionOp.commit] ++
         if b then [SessionOp.refresh] else []) := by
  show (let i : Nat :=
          match getAttr a0 "id" with
          | Value.int n => n.toNat
          | _ => s.nextId
        let a := setAttr a0 "id" (Value.int (Int.ofNat i))
        ((⟨some i, a⟩ : Obj), (⟨s.rows ++ [a], max s.nextId (i + 1)⟩ : DB),
          [SessionOp.add, SessionOp.commit] ++
            if b then [SessionOp.refresh] else [])) = _
  rw [h]

/-! Concrete data used in the witnesses. -/

/-- A concrete model with an identity column and a name column. -/
def mW : Model := ⟨["id", "name"]⟩

/-- A concrete persisted row. -/
def rowW : Attrs := [("id", Value.int 1), ("name", Value.str "a")]

/-- The concrete row as a persistent instance. -/
def xW : Obj := ⟨some 1, rowW⟩

/-- A concrete store holding the one row. -/
def sW : DB := ⟨[rowW], 2⟩

/-- A concrete empty store. -/
def sW0 : DB := ⟨[], 1⟩

/-! The claims. -/

/-- Claim C1: for every criteria mapping whose filtered read succeeds with a
sequence, get returns exactly the first element of the sequence that filter
returns, or the absent result (never an error) when that sequence is
empty. -/
theorem get_is_first_of_filter (m : Model) (c : Attrs) (s : DB)
    (l : List Obj) (h : ManagerBase.filter m c s = Except.ok l) :
    ManagerBase.get m c s = Except.ok l.head? := by
  unfold ManagerBase.filter ManagerBase._filter at h
  unfold ManagerBase.get ManagerBase._filter
  by_cases hc : (c.all fun kv => m.hasattr kv.1) = true
  · rw [if_pos hc] at h ⊢
    simp only [Except.map, Except.ok.injEq] at h
    subst h
    rfl
  · rw [if_neg hc] at h
    simp [Except.map] at h

/-- Witness for C1 at a concrete model, criteria and store. -/
theorem get_is_first_of_filter_witness :
    ManagerBase.get mW [("name", Value.str "a")] sW =
      Except.ok (List.head? [rowToObj rowW]) :=
  get_is_first_of_filter mW [("name", Value.str "a")] sW [rowToObj rowW]
    (by rfl)

/-- Claim C5: filter with empty criteria and get_all return the same
sequence of instances, and both always succeed with the sequence of all
rows. -/
theorem filter_empty_eq_get_all (m : Model) (s : DB) :
    ManagerBase.filter m [] s = ManagerBase.get_all m s ∧
    ManagerBase.get_all m s = Except.ok (s.rows.map rowToObj) := by
  refine ⟨rfl, ?q⟩
  unfold ManagerBase.get_all ManagerBase._filter
  simp [Except.map]

/-- Claim C7: construction fails exactly when no Entity Definition is
available (neither passed by the caller nor predefined), and a
caller-supplied definition is bound as the configuration. -/
theorem init_spec (cm a : Option Model) :
    ((∃ e, ManagerBase.init cm a = Except.error e) ↔
      (a = none ∧ cm = none)) ∧
    (∀ x, a = some x → ManagerBase.init cm a = Except.ok x) := by
  cases a <;> cases cm <;> simp [ManagerBase.init]

/-- Witness for C7: a caller-supplied model is bound as the configuration. -/
theorem init_spec_witness :
    ManagerBase.init none (some mW) = Except.ok mW :=
  (init_spec none (some mW)).2 mW rfl

/-- Claim C8: within one create or update call the session operations are
exactly add, then commit, then refresh; within one delete call exactly
delete then commit; and each call issues exactly one commit, so every
method is its own atomic unit. -/
theorem session_op_order (m : Model) (x : Obj) (f : Attrs) (s : DB) :
    (ManagerBase.update m x f s).2.2 =
      [SessionOp.add, SessionOp.commit, SessionOp.refresh] ∧
    (ManagerBase.delete x s).2.2 = [SessionOp.del, SessionOp.commit] ∧
    (∀ x2 s2 tr, ManagerBase.create m f s = Except.ok (x2, s2, tr) →
      tr = [SessionOp.add, SessionOp.commit, SessionOp.refresh]) ∧
    (ManagerBase.update m x f s).2.2.count SessionOp.commit = 1 ∧
    (ManagerBase.delete x s).2.2.count SessionOp.commit = 1 := by
  have hu : (ManagerBase.update m x f s).2.2 =
      [SessionOp.add, SessionOp.commit, SessionOp.refresh] := by
    simpa using save_trace ⟨x.pid, applyData m x.attrs f⟩ true s
  have hd : (ManagerBase.delete x s).2.2 = [SessionOp.del, SessionOp.commit] :=
    rfl
  refine ⟨hu, hd, ?hc, ?c1, ?c2⟩
  case hc =>
    intro x2 s2 tr h
    unfold ManagerBase.create at h
    cases hcon : m.construct f with
    | error e => rw [hcon] at h; simp [Except.map] at h
    | ok a =>
      rw [hcon] at h
      simp only [Except.map, Except.ok.injEq] at h
      have ht := save_trace ⟨none, a⟩ true s
      rw [h] at ht
      simpa using ht
  case c1 => rw [hu]; rfl
  case c2 => rw [hd]; rfl

/-- Witness for C8 at a concrete update and a concrete create call. -/
theorem session_op_order_witness :
    (ManagerBase.update mW xW [] sW).2.2 =
      [SessionOp.add, SessionOp.commit, SessionOp.refresh] ∧
    [SessionOp.add, SessionOp.commit, SessionOp.refresh] =
      [SessionOp.add, SessionOp.commit, SessionOp.refresh] :=
  ⟨(session_op_order mW xW [] sW).1,
   (session_op_order mW xW [("name", Value.str "a")] sW0).2.2.1 xW sW
     [SessionOp.add, SessionOp.commit, SessionOp.refresh] (by rfl)⟩

/-- Claim C9: a criteria key that is not an attribute of the Entity
Definition makes the internal filtered read, get and filter raise the
attribute-lookup error instead of returning absent or an empty sequence. -/
theorem invalid_criteria_error (m : Model) (c : Attrs) (s : DB)
    (kv : String × Value) (hmem : kv ∈ c) (hbad : m.hasattr kv.1 = false) :
    ManagerBase._filter m c s = Except.error "AttributeError" ∧
    ManagerBase.get m c s = Except.error "AttributeError" ∧
    ManagerBase.filter m c s = Except.error "AttributeError" := by
  have hall : (c.all fun kv => m.hasattr kv.1) = false := by
    cases hc : (c.all fun kv => m.hasattr kv.1) with
    | false => rfl
    | true =>
      have hkv := List.all_eq_true.mp hc kv hmem
      rw [hbad] at hkv
      cases hkv
  refine ⟨?f1, ?f2, ?f3⟩ <;>
    simp [ManagerBase._filter, ManagerBase.get, ManagerBase.filter, hall,
      Except.map]

/-- Witness for C9 at a concrete bogus criteria key. -/
theorem invalid_criteria_error_witness :
    ManagerBase.get mW [("bogus", Value.int 0)] sW =
      Except.error "AttributeError" :=
  (invalid_criteria_error mW [("bogus", Value.int 0)] sW
    ("bogus", Value.int 0) (List.mem_cons_self _ _) (by rfl)).2.1

/-- Claim C10: an empty update is not a store no-op: it is exactly a save
with the post-commit refresh, issuing add, commit and refresh like any
other update; and the public create and update always request the refresh. -/
theorem update_empty_saves (m : Model) (x : Obj) (s : DB) :
    ManagerBase.update m x [] s = ManagerBase._save x true s ∧
    (ManagerBase.update m x [] s).2.2 =
      [SessionOp.add, SessionOp.commit, SessionOp.refresh] ∧
    (∀ f, SessionOp.refresh ∈ (ManagerBase.update m x f s).2.2) ∧
    (∀ f x2 s2 tr, ManagerBase.create m f s = Except.ok (x2, s2, tr) →
      SessionOp.refresh ∈ tr) := by
  refine ⟨rfl, ?h2, ?h3, ?h4⟩
  case h2 =>
    simpa using save_trace ⟨x.pid, applyData m x.attrs []⟩ true s
  case h3 =>
    intro f
    have h := save_trace ⟨x.pid, applyData m x.attrs f⟩ true s
    show SessionOp.refresh ∈
      (ManagerBase._save ⟨x.pid, applyData m x.attrs f⟩ true s).2.2
    rw [h]
    simp
  case h4 =>
    intro f x2 s2 tr h
    unfold ManagerBase.create at h
    cases hcon : m.construct f with
    | error e => rw [hcon] at h; simp [Except.map] at h
    | ok a =>
      rw [hcon] at h
      simp only [Except.map, Except.ok.injEq] at h
      have ht := save_trace ⟨none, a⟩ true s
      rw [h] at ht
      rw [show tr = (x2, s2, tr).2.2 from rfl, ht]
      simp

/-- Witness for C10 at a concrete create call. -/
theorem update_empty_saves_witness :
    SessionOp.refresh ∈ [SessionOp.add, SessionOp.commit, SessionOp.refresh] :=
  (update_empty_saves mW xW sW0).2.2.2 [("name", Value.str "a")] xW sW
    [SessionOp.add, SessionOp.commit, SessionOp.refresh] (by rfl)

/-- Claim C2: updating a persistent instance with a field map naming only
declared fields leaves each field named in the map equal to the supplied
value, every field not named in the map unchanged, and returns the instance
with its identity intact. -/
theorem update_sets_fields (m : Model) (x : Obj) (f : Attrs) (s : DB)
    (i : Nat) (hp : x.pid = some i)
    (hf : ∀ kv ∈ f, m.hasattr kv.1 = true)
    (hnd : (f.map Prod.fst).Nodup) :
    (∀ kv ∈ f, getAttr ((ManagerBase.update m x f s).1).attrs kv.1 = kv.2) ∧
    (∀ k, (∀ kv ∈ f, kv.1 ≠ k) →
      getAttr ((ManagerBase.update m x f s).1).attrs k = getAttr x.attrs k) ∧
    ((ManagerBase.update m x f s).1).pid = x.pid := by
  have hobj : (ManagerBase.update m x f s).1 =
      ⟨x.pid, applyData m x.attrs f⟩ :=
    save_persistent_obj ⟨x.pid, applyData m x.attrs f⟩ true s i hp
  refine ⟨?s1, ?s2, ?s3⟩
  case s1 =>
    intro kv hm
    rw [hobj]
    exact getAttr_applyData_mem m kv (hf kv hm) f hnd hm x.attrs
  case s2 =>
    intro k hk
    rw [hobj]
    exact getAttr_applyData_not_mem m k f hk x.attrs
  case s3 => rw [hobj]

/-- Witness for C2: updating the name field of the persisted row. -/
theorem update_sets_fields_witness :
    getAttr ((ManagerBase.update mW xW [("name", Value.str "b")] sW).1).attrs
        "name" = Value.str "b" ∧
    getAttr ((ManagerBase.update mW xW [("name", Value.str "b")] sW).1).attrs
        "id" = Value.int 1 := by
  have h := update_sets_fields mW xW [("name", Value.str "b")] sW 1 rfl
    (by decide) (by decide)
  refine ⟨h.1 ("name", Value.str "b") (List.mem_cons_self _ _), ?w2⟩
  have h2 := h.2.1 "id" (by decide)
  rw [h2]
  rfl

/-- Claim C4: an undeclared key in the update field map neither raises nor
has any effect: the update equals the update with all undeclared keys
dropped, and the named field keeps its prior value on the instance. -/
theorem update_ignores_unknown (m : Model) (x : Obj) (f : Attrs) (s : DB)
    (k : String) (i : Nat) (hp : x.pid = some i)
    (hk : m.hasattr k = false) :
    ManagerBase.update m x f s =
      ManagerBase.update m x (f.filter (fun kv => m.hasattr kv.1)) s ∧
    getAttr ((ManagerBase.update m x f s).1).attrs k = getAttr x.attrs k := by
  constructor
  · show ManagerBase._save ⟨x.pid, applyData m x.attrs f⟩ true s =
      ManagerBase._save
        ⟨x.pid, applyData m x.attrs (f.filter (fun kv => m.hasattr kv.1))⟩
        true s
    rw [applyData_filter_hasattr m f x.attrs]
  · have hobj : (ManagerBase.update m x f s).1 =
        ⟨x.pid, applyData m x.attrs f⟩ :=
      save_persistent_obj ⟨x.pid, applyData m x.attrs f⟩ true s i hp
    rw [hobj]
    exact getAttr_applyData_not_hasattr m k hk f x.attrs

/-- Witness for C4 at a concrete bogus update key. -/
theorem update_ignores_unknown_witness :
    ManagerBase.update mW xW [("bogus", Value.int 7)] sW =
      ManagerBase.update mW xW
        ([("bogus", Value.int 7)].filter (fun kv => mW.hasattr kv.1)) sW ∧
    getAttr ((ManagerBase.update mW xW [("bogus", Value.int 7)] sW).1).attrs
        "bogus" = getAttr xW.attrs "bogus" :=
  update_ignores_unknown mW xW [("bogus", Value.int 7)] sW "bogus" 1 rfl
    (by rfl)

/-- Claim C6: after deleting a persisted instance, a filtered read by its
former identity returns the empty sequence, and delete returns the instance
itself with its in-memory fields intact. -/
theorem delete_removes_row (m : Model) (x : Obj) (s : DB) (i : Nat)
    (hp : x.pid = some i) (hid : m.hasattr "id" = true) :
    ManagerBase.filter m [("id", Value.int (Int.ofNat i))]
      ((ManagerBase.delete x s).2.1) = Except.ok [] ∧
    (ManagerBase.delete x s).1 = x := by
  refine ⟨?d1, rfl⟩
  unfold ManagerBase.filter ManagerBase._filter ManagerBase.delete
    ManagerBase._delete
  rw [hp]
  simp [hid, List.filter_filter, Except.map]

/-- Witness for C6 at the concrete persisted row. -/
theorem delete_removes_row_witness :
    ManagerBase.filter mW [("id", Value.int (Int.ofNat 1))]
        ((ManagerBase.delete xW sW).2.1) = Except.ok [] ∧
    (ManagerBase.delete xW sW).1 = xW :=
  delete_removes_row mW xW sW 1 rfl (by rfl)

/-- Claim C3: create fails, with the error propagated from the Entity
Definition's constructor, exactly when the field map holds a key naming no
declared field; for a valid field map not supplying the identity it returns
an instance whose declared fields equal the map's values, with the
store-assigned identity populated. -/
theorem create_spec (m : Model) (f : Attrs) (s : DB) :
    ((∃ e, ManagerBase.create m f s = Except.error e) ↔
      ∃ kv ∈ f, m.hasattr kv.1 = false) ∧
    ((∀ kv ∈ f, m.hasattr kv.1 = true) → "id" ∉ f.map Prod.fst →
      (f.map Prod.fst).Nodup →
      ∃ x2 s2 tr, ManagerBase.create m f s = Except.ok (x2, s2, tr) ∧
        (∀ kv ∈ f, getAttr x2.attrs kv.1 = kv.2) ∧
        getAttr x2.attrs "id" = Value.int (Int.ofNat s.nextId) ∧
        x2.pid = some s.nextId) := by
  constructor
  · cases hc : (f.all fun kv => m.hasattr kv.1) with
    | true =>
      constructor
      · rintro ⟨e, he⟩
        unfold ManagerBase.create Model.construct at he
        rw [if_pos hc] at he
        simp [Except.map] at he
      · rintro ⟨kv, hm, hkv⟩
        have hkv2 := List.all_eq_true.mp hc kv hm
        rw [hkv] at hkv2
        cases hkv2
    | false =>
      constructor
      · intro _
        have hnot : ¬ ∀ kv ∈ f, m.hasattr kv.1 = true := by
          intro hall
          have hc2 := List.all_eq_true.mpr hall
          rw [hc2] at hc
          cases hc
        push_neg at hnot
        obtain ⟨kv, hm, hne⟩ := hnot
        exact ⟨kv, hm, by simpa using hne⟩
      · intro _
        refine ⟨"invalid keyword argument", ?he⟩
        unfold ManagerBase.create Model.construct
        rw [if_neg ?hcond]
        · rfl
        · rw [hc]
          exact Bool.false_ne_true
  · intro hall hid hnd
    have hc : (f.all fun kv => m.hasattr kv.1) = true :=
      List.all_eq_true.mpr hall
    have hcon : m.construct f =
        Except.ok (m.fields.map (fun fl => (fl, getAttr f fl))) := by
      unfold Model.construct
      rw [if_pos hc]
    have hidnull : getAttr f "id" = Value.null :=
      getAttr_not_mem_keys "id" f hid
    have hid0 : getAttr (m.fields.map (fun fl => (fl, getAttr f fl))) "id" =
        Value.null := by
      by_cases hmem : "id" ∈ m.fields
      · rw [getAttr_map_fields (fun fl => getAttr f fl) "id" m.fields hmem]
        exact hidnull
      · exact getAttr_map_fields_not_mem (fun fl => getAttr f fl) "id"
          m.fields hmem
    have hsave := save_transient (m.fields.map (fun fl => (fl, getAttr f fl)))
      true s hid0
    refine ⟨⟨some s.nextId,
        setAttr (m.fields.map (fun fl => (fl, getAttr f fl))) "id"
          (Value.int (Int.ofNat s.nextId))⟩,
      ⟨s.rows ++ [setAttr (m.fields.map (fun fl => (fl, getAttr f fl))) "id"
          (Value.int (Int.ofNat s.nextId))],
        max s.nextId (s.nextId + 1)⟩,
      [SessionOp.add, SessionOp.commit, SessionOp.refresh],
      ?heq, ?hv, ?hidv, ?hpid⟩
    case heq =>
      unfold ManagerBase.create
      rw [hcon]
      simp only [Except.map]
      rw [hsave]
      rfl
    case hv =>
      intro kv hm
      have hne : kv.1 ≠ "id" := by
        intro he
        refine hid ?hmm
        rw [← he]
        exact List.mem_map_of_mem Prod.fst hm
      rw [getAttr_setAttr_other _ _ _ _ hne]
      have hmemf : kv.1 ∈ m.fields :=
        (hasattr_iff_mem m kv.1).mp (hall kv hm)
      rw [getAttr_map_fields (fun fl => getAttr f fl) kv.1 m.fields hmemf]
      exact getAttr_of_mem_nodup kv f hnd hm
    case hidv => exact getAttr_setAttr_same _ "id" _
    case hpid => rfl

/-- Witness for C3: creating a row from a valid field map in the empty
store. -/
theorem create_spec_witness :
    ∃ x2 s2 tr,
      ManagerBase.create mW [("name", Value.str "a")] sW0 =
        Except.ok (x2, s2, tr) ∧
      (∀ kv ∈ [("name", Value.str "a")], getAttr x2.attrs kv.1 = kv.2) ∧
      getAttr x2.attrs "id" = Value.int (Int.ofNat sW0.nextId) ∧
      x2.pid = some sW0.nextId :=
  (create_spec mW [("name", Value.str "a")] sW0).2 (by decide) (by decide)
    (by decide)
